import Mathlib

/-
Verification development for the builtin query module of the Greynir
repository (queries/builtin.py).

The module's core is pure computation over request-scoped dictionaries:
  * `make_response_list` ranks answer buckets by recency-weighted mention
    counts, text length and cross-containment bonuses, then filters and
    truncates;
  * `name_key_to_update` merges spelling variants of person names into one
    registry key;
  * `create_name_register` (with `add_name_to_register` and
    `add_entity_to_register`) builds a name/entity registry from a token
    stream;
  * `sentence` dispatches a parsed query to a handler and records exactly
    one terminal answer/error on the query object;
  * `query_word` wraps the word-relatedness lookup.

Embedding conventions:
  * Python dicts are insertion-ordered; they are modelled as association
    lists (`List (String × V)`) with unique keys, with `dinsert` (update in
    place or append) and `derase` mirroring Python assignment and deletion.
  * `datetime` values are modelled as integer seconds; `timedelta.days` is
    floor division by 86400 (`Int.fdiv`).
  * Python floats are modelled as real numbers (`ℝ`); `math.log` is
    `Real.log`, `math.log x 4` is `Real.logb 4 x`, `math.e` is
    `Real.exp 1`.  (`math.log 0` raises in Python; on the real model
    `Real.log 0 = 0`.  None of the theorems below depend on the value at
    that single junk point.)
  * `sorted(..., key=k, reverse=True)` is Timsort, a stable descending
    sort; it is modelled by the stable insertion sort `sortByDesc`.
  * Code that can raise an uncaught exception (IndexError on `parts[0]`
    and `name[-1]`, the `assert name != k`) is modelled in the `Except`
    monad; `.error ()` marks a raised exception.
  * External collaborators (database lookups, `correct_spaces`,
    similarity search) are passed in as oracle functions, as the spec
    directs ("treated as external collaborators").
  * `str.lower()` is modelled for ASCII plus the Icelandic capitals, which
    covers every string the module compares.
-/

namespace Greynir

/-! ## Python string primitives -/

/-- Lower-casing of a single character: ASCII `A`-`Z` plus the Icelandic
capital letters, matching `str.lower()` on the alphabet this module uses. -/
def pyLowChar (c : Char) : Char :=
  if 'A' ≤ c ∧ c ≤ 'Z' then Char.ofNat (c.toNat + 32)
  else if c = 'Á' then 'á' else if c = 'Ð' then 'ð' else if c = 'É' then 'é'
  else if c = 'Í' then 'í' else if c = 'Ó' then 'ó' else if c = 'Ú' then 'ú'
  else if c = 'Ý' then 'ý' else if c = 'Þ' then 'þ' else if c = 'Æ' then 'æ'
  else if c = 'Ö' then 'ö' else c

/-- Python `s.lower()`. -/
def pyLower (s : String) : String := String.mk (s.data.map pyLowChar)

/-- Worker for `pySplit`: split a character list on whitespace runs,
accumulating the current word in reverse. -/
def splitGo : List Char → List Char → List String
  | [], acc => if acc.isEmpty then [] else [String.mk acc.reverse]
  | c :: cs, acc =>
      if c.isWhitespace then
        if acc.isEmpty then splitGo cs [] else String.mk acc.reverse :: splitGo cs []
      else splitGo cs (c :: acc)

/-- Python `s.split()` with no argument: split on whitespace runs and drop
empty pieces. -/
def pySplit (s : String) : List String := splitGo s.data []

/-- Python `l[1:-1]`. -/
def pyMiddle {α : Type} (l : List α) : List α := (l.drop 1).dropLast

/-- Python `a.startswith(b)`. -/
def pyStartsWith (a b : String) : Bool := b.data.isPrefixOf a.data

/-- Is `l` a contiguous sublist of the second argument?  Models Python's
substring test `l in h` on the underlying character lists. -/
def infixOfB (l : List Char) : List Char → Bool
  | [] => l.isEmpty
  | c :: cs => l.isPrefixOf (c :: cs) || infixOfB l cs

/-! ## Ordered dictionaries (Python `dict`)

A Python dict preserves insertion order: assignment to an existing key
updates it in place, assignment to a fresh key appends, deletion keeps the
remaining order.  Keys are unique by construction. -/

/-- Python `k in d`. -/
def isKey {V : Type} (reg : List (String × V)) (k : String) : Bool :=
  reg.any (fun p => p.1 == k)

/-- Python `d[k] = v`: update in place if present, else append. -/
def dinsert {V : Type} (reg : List (String × V)) (k : String) (v : V) :
    List (String × V) :=
  if isKey reg k then reg.map (fun p => if p.1 = k then (k, v) else p)
  else reg ++ [(k, v)]

/-- Python `del d[k]`. -/
def derase {V : Type} (reg : List (String × V)) (k : String) :
    List (String × V) :=
  reg.filter (fun p => p.1 != k)

/-! ## Stable descending sort

`sorted(xs, key=k, reverse=True)` sorts stably by decreasing key: elements
with equal keys keep their input order.  Insertion sort from the right end
has exactly this behaviour: `x` is placed in front of the first element
whose key is `≤ key x`. -/

/-- Insert `x` into a descending-sorted list, in front of the first element
with a key not larger than `key x` (stable for equal keys). -/
def insertByDesc {α β : Type} [LinearOrder β] (key : α → β) (x : α) :
    List α → List α
  | [] => [x]
  | y :: ys => if key y ≤ key x then x :: y :: ys else y :: insertByDesc key x ys

/-- Stable descending sort by `key`; models `sorted(l, key=key, reverse=True)`. -/
def sortByDesc {α β : Type} [LinearOrder β] (key : α → β) (l : List α) : List α :=
  l.foldr (insertByDesc key) []

/-! ## Data model -/

/-- One observed mention of an answer candidate in one article: the
`ai` dictionary built in `append_answers` / `append_names`
(`domain`, `uuid`, `heading`, `timestamp`, `ts`, `url`).  Timestamps are
integer seconds; `ts` carries the (opaque) ISO-format prefix string. -/
structure Mention where
  domain : String
  uuid : String
  heading : String
  timestamp : ℤ
  ts : String
  url : String
deriving DecidableEq

/-- One answer bucket: the per-answer dict `article_id → mention`. -/
abbrev Bucket := List (String × Mention)

/-- The result dictionary `rd : answer text → bucket`. -/
abbrev RD := List (String × Bucket)

/-- Maximum number of top answers to send in response to queries. -/
def _MAXLEN_ANSWER : ℕ := 20

/-- If we have 5 or more titles/definitions with more than one associated
URL, cut off those that have only one source URL. -/
def _CUTOFF_AFTER : ℕ := 4

/-- Maximum number of URL sources to provide for each top answer. -/
def _MAX_URLS : ℕ := 5

/-- Maximum number of identical mentions considered when scoring. -/
def _MAX_MENTIONS : ℕ := 5

/-- Cross-mention bonus factor (`CROSS_MENTION_FACTOR = 0.20`). -/
noncomputable def CROSS_MENTION_FACTOR : ℝ := 0.20

/-- Bonus factor for an "ex" ("fyrrverandi") cross mention
(`EX_MENTION_FACTOR = 0.35`). -/
noncomputable def EX_MENTION_FACTOR : ℝ := 0.35

/-! ## The answer ranker: `make_response_list` -/

/-- `timedelta.days`: whole days, rounded towards minus infinity, of a
difference given in seconds. -/
def pyDays (delta : ℤ) : ℤ := delta.fdiv 86400

/-- Sort the individual article mentions of a bucket so that the newest one
appears first: `sorted(articles.values(), key=..timestamp, reverse=True)`. -/
def sort_articles (articles : Bucket) : List Mention :=
  sortByDesc (fun a => a.timestamp) (articles.map Prod.snd)

/-- Longer results are better than shorter ones, but only to a point:
`min(math.e * math.log(len(result)), 10.0)`. -/
noncomputable def length_weight (result : String) : ℝ :=
  min (Real.exp 1 * Real.log result.length) 10

/-- Newer mentions are better than older ones: sum, over the up to 5 newest
mentions, of `14.0 / (1.0 + log_4(age + 4))` with `age = max(0, days)`;
a single mention is worth only `1/e` of a multiple mention. -/
noncomputable def mention_weight (now : ℤ) (articles : Bucket) : ℝ :=
  let newest_mentions := (sort_articles articles).take _MAX_MENTIONS
  let w := newest_mentions.foldl
    (fun w a =>
      w + 14 / (1 + Real.logb 4 (((max 0 (pyDays (now - a.timestamp)) : ℤ) : ℝ) + 4)))
    0
  if newest_mentions.length = 1 then w / Real.exp 1 else w

/-- Return true if whole needles are contained in the haystack:
`(" " + needle.lower() + " ") in (" " + haystack.lower() + " ")`. -/
def contained (needle haystack : String) : Bool :=
  infixOfB (' ' :: (pyLower needle).data ++ [' '])
    (' ' :: (pyLower haystack).data ++ [' '])

/-- Does the given result contain an 'ex' prefix word
("fyrrverandi", "fráfarandi", "áður", "þáverandi", "fyrrum")? -/
def is_ex (s : String) : Bool :=
  ["fyrrverandi", "fráfarandi", "áður", "þáverandi", "fyrrum"].any
    (fun x => contained x s)

/-- The body of the cross-mention inner loop for one containment pair
`(ri, rj)` (ri ranked first), with `crosses` already incremented: the two
independent conditionals of the source, each either adding the `0.35` ex
bonus to the marked side or the diluted `0.20 / crosses` bonus to the
other side. -/
noncomputable def applyPair (mw : String → ℝ) (ri rj : String) (crosses : ℕ)
    (scores : String → ℝ) : String → ℝ :=
  let s1 :=
    if is_ex ri && !is_ex rj then
      Function.update scores ri (scores ri + mw rj * EX_MENTION_FACTOR)
    else
      Function.update scores rj
        (scores rj + mw ri * CROSS_MENTION_FACTOR / (crosses : ℝ))
  if is_ex rj && !is_ex ri then
    Function.update s1 rj (s1 rj + mw ri * EX_MENTION_FACTOR)
  else
    Function.update s1 ri (s1 ri + mw rj * CROSS_MENTION_FACTOR / (crosses : ℝ))

/-- The cross-mention inner loop: walk the keys ranked after `ri`, apply
`applyPair` on each containment, and stop once 5 crosses are found. -/
noncomputable def innerLoop (mw : String → ℝ) (ri : String) :
    List String → ℕ → (String → ℝ) → (String → ℝ)
  | [], _, scores => scores
  | rj :: rest, crosses, scores =>
      if contained rj ri || contained ri rj then
        let scores' := applyPair mw ri rj (crosses + 1) scores
        if crosses + 1 = _MAX_MENTIONS then scores'
        else innerLoop mw ri rest (crosses + 1) scores'
      else innerLoop mw ri rest crosses scores

/-- The cross-mention outer loop over all positions `i` of the
mention-weight-sorted key list (`for i in range(len_rl - 1)`; the final
head with an empty tail is a no-op, so folding over every suffix is the
same function). -/
noncomputable def crossLoop (mw : String → ℝ) :
    List String → (String → ℝ) → (String → ℝ)
  | [], scores => scores
  | ri :: rest, scores => crossLoop mw rest (innerLoop mw ri rest 0 scores)

/-- The cutoff stage of `make_response_list`: if the answer at index
`_CUTOFF_AFTER = 4` of the score-sorted list exists and has more than one
source, drop every answer that has only one source (applied once). -/
def cutoff (rl : List (String × List Mention)) : List (String × List Mention) :=
  match rl[_CUTOFF_AFTER]? with
  | some v =>
      if 1 < v.2.length then rl.filter (fun x => decide (1 < x.2.length)) else rl
  | none => rl

/-- The per-answer mention-weight dictionary built by the first loop of
`make_response_list` (`mention_weights[result] = mention_weight(articles)`). -/
noncomputable def mention_weights_of (now : ℤ) (rd : RD) : String → ℝ :=
  rd.foldl (fun f p => Function.update f p.1 (mention_weight now p.2))
    (fun _ => 0)

/-- The initial scores dictionary built by the same loop
(`scores[result] = mw + length_weight(result)`). -/
noncomputable def scores0_of (now : ℤ) (rd : RD) : String → ℝ :=
  rd.foldl
    (fun f p => Function.update f p.1 (mention_weight now p.2 + length_weight p.1))
    (fun _ => 0)

/-- The scores after the cross-mention bonus pass, which walks the keys
sorted by decreasing mention weight. -/
noncomputable def scores_of (now : ℤ) (rd : RD) : String → ℝ :=
  crossLoop (mention_weights_of now rd)
    (sortByDesc (fun s => mention_weights_of now rd s) (rd.map Prod.fst))
    (scores0_of now rd)

/-- Create a response list from the result dictionary `rd`:
per-bucket mention and length weights, the mention-weight-sorted key list,
the cross-mention bonus pass, the score-descending sort of the
`(answer, sorted sources)` pairs, the single-source cutoff, and truncation
to 20 answers of at most 5 sources each.  The ambient `datetime.utcnow()`
is the explicit parameter `now`. -/
noncomputable def make_response_list (now : ℤ) (rd : RD) :
    List (String × List Mention) :=
  ((cutoff (sortByDesc (fun p => scores_of now rd p.1)
      (rd.map (fun p => (p.1, sort_articles p.2))))).take _MAXLEN_ANSWER).map
    (fun a => (a.1, a.2.take _MAX_URLS))

/-! ## The name canonicalizer: `name_key_to_update` -/

/-- Strip one trailing period: `if n.endswith("."): n = n[:-1]`. -/
def strip_period (n : String) : String :=
  if n.data.getLast? = some '.' then String.mk n.data.dropLast else n

/-- Return true if the middle name or abbreviation `n` can correspond to
any middle name or abbreviation in `nlist` (equal, or a prefix in either
direction, after stripping trailing periods). -/
def has_correspondence (n : String) (nlist : List String) : Bool :=
  let n' := strip_period n
  nlist.any (fun m =>
    let m' := strip_period m
    n' == m' || pyStartsWith n' m' || pyStartsWith m' n')

/-- The scan of `name_key_to_update` over the registry entries, carrying the
whole registry for the migrate-and-rename mutation.  `nparts`/`mn` are the
candidate's token list and middle tokens.  `.error ()` models the
IndexError raised by `nparts[0]` / `parts[0]` on a token-less name and the
(unreachable) `assert name != k`. -/
def nktuLoop {V : Type} (register : List (String × V)) (name : String)
    (nparts mn : List String) :
    List (String × V) → Except Unit (List (String × V) × String)
  | [] => .ok (register, name)
  | (k, v) :: rest =>
    match nparts.head?, nparts.getLast?, (pySplit k).head?, (pySplit k).getLast? with
    | some n0, some nl, some p0, some pl =>
      if n0 ≠ p0 ∨ nl ≠ pl then nktuLoop register name nparts mn rest
      else if mn.isEmpty then .ok (register, k)
      else
        let mp := pyMiddle (pySplit k)
        if mp.isEmpty then
          if name = k then .error ()
          else .ok (derase (dinsert register name v) k, name)
        else
          let c_n_p := mn.map (fun n => has_correspondence n mp)
          let c_p_n := mp.map (fun n => has_correspondence n mn)
          if c_n_p.all id || c_p_n.all id then
            if mp.length < mn.length then
              if name = k then .error ()
              else .ok (derase (dinsert register name v) k, name)
            else .ok (register, k)
          else nktuLoop register name nparts mn rest
    | _, _, _, _ => .error ()

/-- Return the registry key to update with data about the given person
name: the exact name if already present, an existing corresponding key, or
the name itself (migrating the old entry when the new name is more
specific).  Every return path of the source returns a string, so the
`None` of the documented contract never occurs; uncaught IndexError is
`.error ()`. -/
def name_key_to_update {V : Type} (register : List (String × V)) (name : String) :
    Except Unit (List (String × V) × String) :=
  if isKey register name then .ok (register, name)
  else nktuLoop register name (pySplit name) (pyMiddle (pySplit name)) register

/-- `rd[s][uuid] = m` on the `defaultdict(dict)` result dictionary. -/
def rdInsert (rd : RD) (s uuid : String) (m : Mention) : RD :=
  if isKey rd s then rd.map (fun p => if p.1 = s then (s, dinsert p.2 uuid m) else p)
  else rd ++ [(s, dinsert [] uuid m)]

/-- Iterate over query rows and add them to the result dictionary, resolving
each bucket key through `name_key_to_update`.  A row is the pair of the
normalized name text (`correct_spaces(prop_func(p))`, normalization being
an external utility) and the mention record built from the row.  The
source's `if s is not None` guard is vacuous since the key is always a
string. -/
def append_names (rd : RD) (rows : List (String × Mention)) : Except Unit RD :=
  rows.foldlM (fun rd row =>
    match name_key_to_update rd row.1 with
    | .error e => .error e
    | .ok (rd', s) => .ok (rdInsert rd' s row.2.uuid row.2)) rd

/-! ## The registry builder: `create_name_register` -/

/-- A name register entry: `{kind: "name"|"entity", title}` or
`{kind: "ref", fullname}`.  An empty-string title/definition is falsy in
Python, so a stored title is `some` of a non-empty string or `none`. -/
inductive Entry
  | name (title : Option String)
  | entity (title : Option String)
  | ref (fullname : String)
deriving DecidableEq

/-- A name register. -/
abbrev Register := List (String × Entry)

/-- The first registry key (in insertion order) with more than one token
whose last token equals `n`; the target scan of the two `ref` branches of
`add_entity_to_register`. -/
def findFullKey (register : Register) (n : String) : Option String :=
  (register.find? (fun p =>
    let parts := pySplit p.1
    decide (1 < parts.length) && (parts.getLastD "" == n))).map Prod.fst

/-- The fallthrough of `add_entity_to_register`: store the external
definition if non-empty, a null-titled entry when `all_names`, else
nothing. -/
def entityDefault (defOf : String → String) (name : String)
    (register : Register) (all_names : Bool) : Register :=
  let definition := defOf name
  if definition ≠ "" then dinsert register name (.entity (some definition))
  else if all_names then dinsert register name (.entity none)
  else register

/-- Add the entity `name` and the best definition to the register: skip
when present; for a space-free name reference the last token of an earlier
multi-token key (also in the possessive `..s` form, where `name[-1]` raises
IndexError on an empty name); otherwise store the external definition.
`defOf` is the external `query_entity_def` lookup. -/
def add_entity_to_register (defOf : String → String) (name : String)
    (register : Register) (all_names : Bool) : Except Unit Register :=
  if isKey register name then .ok register
  else if !(name.data.contains ' ') then
    match findFullKey register name with
    | some k => .ok (dinsert register name (.ref k))
    | none =>
      match name.data.getLast? with
      | none => .error ()
      | some c =>
        if c = 's' then
          match findFullKey register (String.mk name.data.dropLast) with
          | some k => .ok (dinsert register name (.ref k))
          | none => .ok (entityDefault defOf name register all_names)
        else .ok (entityDefault defOf name register all_names)
  else .ok (entityDefault defOf name register all_names)

/-- Add the person `name` and the best title to the register: skip when
present, else look up the title externally (`titleOf` models
`query_person_title`), resolve the key via `name_key_to_update`, and store
the title (or a null-titled entry when `all_names`). -/
def add_name_to_register (titleOf : String → String) (name : String)
    (register : Register) (all_names : Bool) : Except Unit Register :=
  if isKey register name then .ok register
  else
    let title := titleOf name
    match name_key_to_update register name with
    | .error e => .error e
    | .ok (register', name_key) =>
      if title ≠ "" then .ok (dinsert register' name_key (.name (some title)))
      else if all_names then .ok (dinsert register' name_key (.name none))
      else .ok register'

/-- A token of the scanned stream, as far as the register builder is
concerned: a person token carries its list of name variants, an entity
token its text. -/
inductive Tok
  | person (names : List String)
  | entity (txt : String)

/-- Assemble a dictionary of person and entity names occurring in the
token list. -/
def create_name_register (titleOf defOf : String → String) (all_names : Bool)
    (tokens : List Tok) : Except Unit Register :=
  tokens.foldlM (fun register t =>
    match t with
    | .person names =>
        names.foldlM (fun r pn => add_name_to_register titleOf pn r all_names) register
    | .entity txt => add_entity_to_register defOf txt register all_names) []

/-- Is the entry a `ref` alias? -/
def isRefB : Entry → Bool
  | .ref _ => true
  | _ => false

/-- The invariant claimed by the spec, stated from its words for the
comparison: every `ref` entry's fullname is itself a key of the same
register whose entry is not a `ref`. -/
def ref_invariant (register : Register) : Bool :=
  register.all (fun p =>
    match p.2 with
    | .ref f => register.any (fun q => q.1 == f && !isRefB q.2)
    | _ => true)

/-- The part of the spec's ref invariant that the code does maintain:
every `ref` entry's fullname consists of more than one
whitespace-separated token (it names a fuller form of some name). -/
def ref_fullname_multitoken (register : Register) : Bool :=
  register.all (fun p =>
    match p.2 with
    | .ref f => decide (1 < (pySplit f).length)
    | _ => true)

/-! ## The query dispatcher: `sentence` -/

/-- A Python value handed to `set_answer`: either a structured handler
answer (of abstract type `α`) or a plain string (the missing-handler
fallback). -/
inductive PyVal (α : Type)
  | obj (a : α)
  | str (s : String)
deriving DecidableEq

/-- The outcome of invoking a handler: a normal answer (with the optional
spoken answer when the handler returned a tuple), an `AssertionError`, or
any other exception with its message text. -/
inductive HandlerOutcome (α : Type)
  | ok (answer : PyVal α) (voice : Option String)
  | assertionError
  | exception (msg : String)

/-- A method call recorded on the external query object. -/
inductive QCall (α : Type)
  | set_qtype (qtype : String)
  | set_key (qkey : String)
  | set_answer (answer : PyVal α) (voice : Option String)
  | set_error (msg : String)
deriving DecidableEq

/-- Called when sentence processing is complete: dispatch on the optional
`(qtype, qkey)` of the parse result through the handler table `qfuncs`
(modelling `_QFUNC.get`).  Returns the trace of calls made on the query
object, and whether an `AssertionError` propagated out. -/
def sentence (α : Type) (result : Option (String × String))
    (qfuncs : String → Option (String → HandlerOutcome α)) :
    List (QCall α) × Bool :=
  match result with
  | none => ([.set_error "E_QUERY_NOT_UNDERSTOOD"], false)
  | some (qtype, qkey) =>
    let pre : List (QCall α) := [.set_qtype qtype, .set_key qkey]
    match qfuncs qtype with
    | none => (pre ++ [.set_answer (.str (qtype ++ ": " ++ qkey)) none], false)
    | some qfunc =>
      match qfunc qkey with
      | .ok answer voice => (pre ++ [.set_answer answer voice], false)
      | .assertionError => (pre, true)
      | .exception msg => (pre ++ [.set_error ("E_EXCEPTION: " ++ msg)], false)

/-- Is the call a `set_answer`? -/
def isSetAnswer {α : Type} : QCall α → Bool
  | .set_answer _ _ => true
  | _ => false

/-- Is the call a `set_error`? -/
def isSetError {α : Type} : QCall α → Bool
  | .set_error _ => true
  | _ => false

/-- Number of `set_answer` calls in a trace. -/
def answerCount {α : Type} (tr : List (QCall α)) : ℕ :=
  (tr.filter isSetAnswer).length

/-- Number of `set_error` calls in a trace. -/
def errorCount {α : Type} (tr : List (QCall α)) : ℕ :=
  (tr.filter isSetError).length

/-! ## The word-relation query: `query_word` -/

/-- The serializable result of a Word query. -/
structure WordResponse where
  count : ℕ
  answers : List (String × String)
deriving DecidableEq

/-- A query for words related to the given stem: count the articles where
the stem occurs (`countQ` models `ArticleCountQuery.count`), fetch related
words only when the count is non-zero (`relQ` models
`RelatedWordsQuery.rel`), and drop the original stem from the answers.
The second component records which external queries were invoked. -/
def query_word (countQ : String → ℕ) (relQ : String → List (String × String × ℕ))
    (stem : String) : WordResponse × List String :=
  let acnt := countQ stem
  let rlistCalls :=
    if acnt ≠ 0 then (relQ stem, ["ArticleCountQuery.count", "RelatedWordsQuery.rel"])
    else ([], ["ArticleCountQuery.count"])
  (⟨acnt, (rlistCalls.1.filter (fun r => r.1 != stem)).map (fun r => (r.1, r.2.1))⟩,
    rlistCalls.2)

/-! ## Decidability of `Except` results and concrete test inputs -/

/-- Decidable equality of `Except` results, so that runs of the embedded
fallible operations can be checked on concrete inputs. -/
instance exceptDecEq {ε α : Type} [DecidableEq ε] [DecidableEq α] :
    DecidableEq (Except ε α)
  | .ok a, .ok b =>
      if h : a = b then .isTrue (by rw [h])
      else .isFalse (by intro hc; cases hc; exact h rfl)
  | .error a, .error b =>
      if h : a = b then .isTrue (by rw [h])
      else .isFalse (by intro hc; cases hc; exact h rfl)
  | .ok _, .error _ => .isFalse (by intro hc; cases hc)
  | .error _, .ok _ => .isFalse (by intro hc; cases hc)

/-- Does the fallible result hold a value (no exception raised)? -/
def exceptOk {ε α : Type} : Except ε α → Bool
  | .ok _ => true
  | .error _ => false

/-- A mention with the given uuid (all other payload fields fixed,
timestamp 0). -/
def mkM (u : String) : Mention := ⟨"d", u, "h", 0, "t", "w"⟩

/-- First single-mention bucket content for the determinism counterexample. -/
def m1 : Mention := ⟨"d", "u1", "h", 0, "t", "w"⟩

/-- Second single-mention bucket content, differing from `m1` only in the
uuid, so that both buckets tie in every weight. -/
def m2 : Mention := ⟨"d", "u2", "h", 0, "t", "w"⟩

/-- A two-bucket result dictionary. -/
def rdA : RD := [("ab", [("u1", m1)]), ("cd", [("u2", m2)])]

/-- The same two buckets in the opposite insertion order: equal to `rdA`
as a key-value map, different as an ordered dictionary. -/
def rdB : RD := [("cd", [("u2", m2)]), ("ab", [("u1", m1)])]

/-- A five-answer score-sorted list whose 5th entry has two sources. -/
def rlC2 : List (String × List Mention) :=
  [("a", [mkM "1"]), ("b", [mkM "2", mkM "3"]), ("c", [mkM "4"]),
   ("d", [mkM "5"]), ("e", [mkM "6", mkM "7"])]

/-- External person-title lookup for the registry counterexample run. -/
def exTitleOf : String → String := fun s =>
  if s = "A Clinton" then "t" else if s = "A Y Clinton" then "u" else ""

/-- Token stream for the registry counterexample run: a full person name,
a last-name entity back-reference, and two person-name migrations that
first move the ref entry and then delete its target. -/
def exToks : List Tok :=
  [.person ["A Clinton"], .entity "Clinton", .person ["Clinton X Clinton"],
   .person ["A Y Clinton"], .entity "Clinton"]

/-- The registry produced by the counterexample run: the ref moved to the
multi-token key "Clinton X Clinton" now dangles ("A Clinton" was deleted),
and the fresh ref "Clinton" points at that ref entry. -/
def exRegister : Register :=
  [("Clinton X Clinton", .ref "A Clinton"),
   ("A Y Clinton", .name (some "u")),
   ("Clinton", .ref "Clinton X Clinton")]

/-- Mention weights used in the cross-mention pair counterexample. -/
noncomputable def mwEx : String → ℝ :=
  fun s => if s = "fyrrverandi forseti" then 10 else 5

/-! # Theorems -/

/-! ## Facts about the stable descending sort -/

theorem mem_insertByDesc {α β : Type} [LinearOrder β] (key : α → β) (x b : α) :
    ∀ l : List α, b ∈ insertByDesc key x l ↔ b = x ∨ b ∈ l
  | [] => by simp [insertByDesc]
  | y :: ys => by
      rw [insertByDesc]
      by_cases hc : key y ≤ key x
      · rw [if_pos hc]
        simp
      · rw [if_neg hc]
        simp only [List.mem_cons, mem_insertByDesc key x b ys]
        tauto

theorem mem_sortByDesc {α β : Type} [LinearOrder β] (key : α → β) (b : α) :
    ∀ l : List α, b ∈ sortByDesc key l ↔ b ∈ l
  | [] => Iff.rfl
  | y :: ys => by
      show b ∈ insertByDesc key y (sortByDesc key ys) ↔ _
      rw [mem_insertByDesc]
      simp only [List.mem_cons, mem_sortByDesc key b ys]

theorem pairwise_insertByDesc {α β : Type} [LinearOrder β] (key : α → β) (x : α) :
    ∀ l : List α, l.Pairwise (fun a b => key b ≤ key a) →
      (insertByDesc key x l).Pairwise (fun a b => key b ≤ key a)
  | [], _ => by simp [insertByDesc]
  | y :: ys, h => by
      rw [insertByDesc]
      obtain ⟨hy, hys⟩ := List.pairwise_cons.mp h
      by_cases hc : key y ≤ key x
      · rw [if_pos hc]
        refine List.pairwise_cons.mpr ⟨?_, h⟩
        intro b hb
        rcases List.mem_cons.mp hb with rfl | hb
        · exact hc
        · exact le_trans (hy b hb) hc
      · rw [if_neg hc]
        refine List.pairwise_cons.mpr ⟨?_, pairwise_insertByDesc key x ys hys⟩
        intro b hb
        rcases (mem_insertByDesc key x b ys).mp hb with rfl | hb
        · exact le_of_not_le hc
        · exact hy b hb

theorem pairwise_sortByDesc {α β : Type} [LinearOrder β] (key : α → β) :
    ∀ l : List α, (sortByDesc key l).Pairwise (fun a b => key b ≤ key a)
  | [] => List.Pairwise.nil
  | y :: ys => pairwise_insertByDesc key y _ (pairwise_sortByDesc key ys)

/-- The two-element case of the stable descending sort, explicitly. -/
theorem sortByDesc_pair {α β : Type} [LinearOrder β] (key : α → β) (a b : α) :
    sortByDesc key [a, b] = if key b ≤ key a then [a, b] else [b, a] := by
  show insertByDesc key a [b] = _
  rw [insertByDesc]
  by_cases h : key b ≤ key a
  · rw [if_pos h, if_pos h]
  · rw [if_neg h, if_neg h]
    rfl

/-- The cutoff stage only ever removes answers. -/
theorem mem_cutoff (rl : List (String × List Mention)) (p : String × List Mention)
    (hp : p ∈ cutoff rl) : p ∈ rl := by
  unfold cutoff at hp
  rcases hv : rl[_CUTOFF_AFTER]? with _ | v
  · rwa [hv] at hp
  · rw [hv] at hp
    have hp' : p ∈ (if 1 < v.2.length then
        List.filter (fun x => decide (1 < x.2.length)) rl else rl) := hp
    by_cases h1 : 1 < v.2.length
    · rw [if_pos h1] at hp'
      exact List.mem_of_mem_filter hp'
    · rwa [if_neg h1] at hp'

/-- Folding additive contributions equals summing them. -/
theorem foldl_add_eq_sum {α : Type} (f : α → ℝ) :
    ∀ (l : List α) (init : ℝ),
      l.foldl (fun w a => w + f a) init = init + (l.map f).sum
  | [], init => by simp
  | a :: l, init => by
      rw [List.foldl_cons, foldl_add_eq_sum f l (init + f a)]
      simp [add_assoc]

/-- C4: For every bucket and fixed now, the mention weight equals the sum,
over the up-to-5 most recent mentions taken by timestamp descending, of
`14 / (1 + log_4(age + 4))` with `age = max(0, whole days between now and
the mention)`, the sum being divided by Euler's number `e` exactly when
that set holds a single mention. -/
theorem c4_mention_weight_formula (now : ℤ) (articles : Bucket) :
    mention_weight now articles =
      (if ((sort_articles articles).take _MAX_MENTIONS).length = 1
       then (((sort_articles articles).take _MAX_MENTIONS).map
          (fun a => 14 / (1 + Real.logb 4
            (((max 0 (pyDays (now - a.timestamp)) : ℤ) : ℝ) + 4)))).sum / Real.exp 1
       else (((sort_articles articles).take _MAX_MENTIONS).map
          (fun a => 14 / (1 + Real.logb 4
            (((max 0 (pyDays (now - a.timestamp)) : ℤ) : ℝ) + 4)))).sum) := by
  simp only [mention_weight]
  rw [foldl_add_eq_sum, zero_add]

/-- C5: For every input bucket table and now, `make_response_list` returns
at most 20 answers; every answer carries at most 5 sources, sorted by
mention timestamp in descending order. -/
theorem c5_truncation_invariants (now : ℤ) (rd : RD) :
    (make_response_list now rd).length ≤ _MAXLEN_ANSWER
    ∧ (make_response_list now rd).Forall
        (fun a => a.2.length ≤ _MAX_URLS
          ∧ a.2.Pairwise (fun m m' => m'.timestamp ≤ m.timestamp)) := by
  constructor
  · unfold make_response_list
    rw [List.length_map]
    exact List.length_take_le _ _
  · rw [List.forall_iff_forall_mem]
    intro a ha
    unfold make_response_list at ha
    rw [List.mem_map] at ha
    obtain ⟨b, hb, rfl⟩ := ha
    refine ⟨List.length_take_le _ _, ?_⟩
    have hb2 := mem_cutoff _ _ (List.mem_of_mem_take hb)
    have hb3 := (mem_sortByDesc (fun p => scores_of now rd p.1) b _).mp hb2
    rw [List.mem_map] at hb3
    obtain ⟨p, _, rfl⟩ := hb3
    refine List.Pairwise.sublist (List.take_sublist _ _) ?_
    exact pairwise_sortByDesc (fun a => a.timestamp) (p.2.map Prod.snd)

/-- A key that is absent from a dictionary differs from every stored key. -/
theorem isKey_eq_false {V : Type} (reg : List (String × V)) (k : String)
    (h : isKey reg k = false) : ∀ p ∈ reg, p.1 ≠ k := by
  intro p hp
  unfold isKey at h
  rw [List.any_eq_false] at h
  simpa using h p hp

/-- The scan of `name_key_to_update` returns without an exception whenever
the candidate and every scanned key split into at least one token and the
candidate differs from every scanned key, and the returned key is the
candidate itself or one of the scanned keys. -/
theorem nktuLoop_ok {V : Type} (register : List (String × V)) (name : String)
    (nparts mn : List String) (hnp : nparts ≠ []) :
    ∀ rest : List (String × V), (∀ p ∈ rest, pySplit p.1 ≠ []) →
      (∀ p ∈ rest, p.1 ≠ name) →
      ∃ register' key, nktuLoop register name nparts mn rest = .ok (register', key)
        ∧ (key = name ∨ key ∈ rest.map Prod.fst) := by
  intro rest
  induction rest with
  | nil => exact fun _ _ => ⟨register, name, rfl, Or.inl rfl⟩
  | cons hd tl ih =>
    intro hsplit hne
    obtain ⟨k, v⟩ := hd
    obtain ⟨n0, hn0⟩ : ∃ n0, nparts.head? = some n0 := by
      cases nparts with
      | nil => exact absurd rfl hnp
      | cons a l => exact ⟨a, rfl⟩
    obtain ⟨nl, hnl⟩ : ∃ nl, nparts.getLast? = some nl :=
      ⟨nparts.getLast hnp, List.getLast?_eq_getLast nparts hnp⟩
    have hk : pySplit k ≠ [] := hsplit (k, v) (List.mem_cons_self _ _)
    obtain ⟨p0, hp0⟩ : ∃ p0, (pySplit k).head? = some p0 := by
      cases hpk : pySplit k with
      | nil => exact absurd hpk hk
      | cons a l => exact ⟨a, rfl⟩
    obtain ⟨pl, hpl⟩ : ∃ pl, (pySplit k).getLast? = some pl :=
      ⟨(pySplit k).getLast hk, List.getLast?_eq_getLast _ hk⟩
    have hkname : name ≠ k :=
      fun h => (hne (k, v) (List.mem_cons_self _ _)) h.symm
    have ihtl := ih (fun p hp => hsplit p (List.mem_cons_of_mem _ hp))
      (fun p hp => hne p (List.mem_cons_of_mem _ hp))
    obtain ⟨r', key, hr, hor⟩ := ihtl
    have hsub : key = name ∨ key ∈ ((k, v) :: tl).map Prod.fst := by
      rcases hor with h | h
      · exact Or.inl h
      · exact Or.inr (by simp only [List.map_cons, List.mem_cons]; exact Or.inr h)
    simp only [nktuLoop, hn0, hnl, hp0, hpl]
    by_cases hc1 : n0 ≠ p0 ∨ nl ≠ pl
    · rw [if_pos hc1]
      exact ⟨r', key, hr, hsub⟩
    · rw [if_neg hc1]
      by_cases hc2 : mn.isEmpty = true
      · rw [if_pos hc2]
        exact ⟨register, k, rfl, Or.inr (by simp)⟩
      · rw [if_neg hc2]
        by_cases hc3 : (pyMiddle (pySplit k)).isEmpty = true
        · rw [if_pos hc3, if_neg hkname]
          exact ⟨_, name, rfl, Or.inl rfl⟩
        · rw [if_neg hc3]
          by_cases hc4 : ((mn.map fun n => has_correspondence n (pyMiddle (pySplit k))).all id
              || ((pyMiddle (pySplit k)).map fun n => has_correspondence n mn).all id) = true
          · rw [if_pos hc4]
            by_cases hc5 : (pyMiddle (pySplit k)).length < mn.length
            · rw [if_pos hc5, if_neg hkname]
              exact ⟨_, name, rfl, Or.inl rfl⟩
            · rw [if_neg hc5]
              exact ⟨register, k, rfl, Or.inr (by simp)⟩
          · rw [if_neg hc4]
            exact ⟨r', key, hr, hsub⟩

/-- C10 counterexample: with a registry holding the token-less key `""`,
the loop body's `parts[0]` raises IndexError, so `name_key_to_update` does
not return a key even though the candidate has a token. -/
theorem c10_counterexample :
    name_key_to_update [("", (0 : ℕ))] "Jón Jónsson" = .error () := by decide

/-- C10 amended: for every registry whose keys each contain at least one
whitespace-separated token and every candidate with at least one token,
`name_key_to_update` raises nothing and returns a string key — either a
key already present in the registry or the candidate itself (so
`append_names` inserts the row's mention into some bucket). -/
theorem c10_returns_existing_or_candidate {V : Type}
    (register : List (String × V)) (name : String)
    (hname : pySplit name ≠ [])
    (hkeys : ∀ p ∈ register, pySplit p.1 ≠ []) :
    exceptOk (name_key_to_update register name) = true
    ∧ ∀ register' key, name_key_to_update register name = .ok (register', key) →
        (key = name ∨ key ∈ register.map Prod.fst) := by
  unfold name_key_to_update
  by_cases hk : isKey register name = true
  · rw [if_pos hk]
    refine ⟨rfl, ?_⟩
    intro r' key h
    simp only [Except.ok.injEq, Prod.mk.injEq] at h
    exact Or.inl h.2.symm
  · rw [if_neg hk]
    have hne : ∀ p ∈ register, p.1 ≠ name :=
      isKey_eq_false register name (Bool.eq_false_iff.mpr hk)
    obtain ⟨r', key, hr, hor⟩ :=
      nktuLoop_ok register name (pySplit name) (pyMiddle (pySplit name)) hname
        register hkeys hne
    refine ⟨by rw [hr]; rfl, ?_⟩
    intro r'' key' h
    rw [hr] at h
    simp only [Except.ok.injEq, Prod.mk.injEq] at h
    rw [← h.2]
    exact hor

/-- C10 witness: a concrete well-formed registry and candidate. -/
theorem c10_returns_existing_or_candidate_witness :
    exceptOk (name_key_to_update [("Jón Sigurðsson", (1 : ℕ))] "Dagur Eggertsson")
      = true :=
  (c10_returns_existing_or_candidate [("Jón Sigurðsson", (1 : ℕ))]
    "Dagur Eggertsson" (by decide) (by decide)).1

/-- Membership in a dict after assignment: either an old entry or the
assigned pair. -/
theorem mem_dinsert {V : Type} (reg : List (String × V)) (k : String) (v : V)
    (p : String × V) (hp : p ∈ dinsert reg k v) : p ∈ reg ∨ p = (k, v) := by
  unfold dinsert at hp
  by_cases h : isKey reg k = true
  · rw [if_pos h] at hp
    rw [List.mem_map] at hp
    obtain ⟨q, hq, hqe⟩ := hp
    by_cases hqk : q.1 = k
    · rw [if_pos hqk] at hqe
      exact Or.inr hqe.symm
    · rw [if_neg hqk] at hqe
      exact Or.inl (hqe ▸ hq)
  · rw [if_neg h] at hp
    rw [List.mem_append] at hp
    rcases hp with h1 | h1
    · exact Or.inl h1
    · exact Or.inr (by simpa using h1)

/-- Membership in a dict after deletion implies prior membership. -/
theorem mem_derase {V : Type} (reg : List (String × V)) (k : String)
    (p : String × V) (hp : p ∈ derase reg k) : p ∈ reg :=
  List.mem_of_mem_filter hp

/-- Every entry of a registry returned by the `name_key_to_update` scan is
an old entry or carries an old entry's value under the candidate name
(the migrate-and-rename step moves values, never invents them). -/
theorem nktuLoop_entries {V : Type} (register : List (String × V)) (name : String)
    (nparts mn : List String) :
    ∀ (rest : List (String × V)) (reg' : List (String × V)) (key : String),
      nktuLoop register name nparts mn rest = .ok (reg', key) →
      ∀ p ∈ reg', p ∈ register ∨ ∃ q ∈ rest, p = (name, q.2) := by
  intro rest
  induction rest with
  | nil =>
    intro reg' key h p hp
    simp only [nktuLoop, Except.ok.injEq, Prod.mk.injEq] at h
    rw [← h.1] at hp
    exact Or.inl hp
  | cons hd tl ih =>
    obtain ⟨k, v⟩ := hd
    intro reg' key h p hp
    rcases h0 : nparts.head? with _ | n0 <;>
      rcases h1 : nparts.getLast? with _ | nl <;>
      rcases h2 : (pySplit k).head? with _ | p0 <;>
      rcases h3 : (pySplit k).getLast? with _ | pl <;>
      simp only [nktuLoop, h0, h1, h2, h3] at h
    all_goals try exact Except.noConfusion h
    -- all four components are `some`: the scan body
    have lift : (p ∈ register ∨ ∃ q ∈ tl, p = (name, q.2)) →
        p ∈ register ∨ ∃ q ∈ (k, v) :: tl, p = (name, q.2) := by
      rintro (hm | ⟨q, hq, rfl⟩)
      · exact Or.inl hm
      · exact Or.inr ⟨q, List.mem_cons_of_mem _ hq, rfl⟩
    have hmig : ∀ reg'', reg'' = derase (dinsert register name v) k →
        p ∈ reg'' → p ∈ register ∨ ∃ q ∈ (k, v) :: tl, p = (name, q.2) := by
      intro reg'' hEq hpm
      rw [hEq] at hpm
      rcases mem_dinsert register name v p (mem_derase _ _ _ hpm) with hm | rfl
      · exact Or.inl hm
      · exact Or.inr ⟨(k, v), List.mem_cons_self _ _, rfl⟩
    by_cases hc1 : n0 ≠ p0 ∨ nl ≠ pl
    · rw [if_pos hc1] at h
      exact lift (ih reg' key h p hp)
    · rw [if_neg hc1] at h
      by_cases hc2 : mn.isEmpty = true
      · rw [if_pos hc2] at h
        simp only [Except.ok.injEq, Prod.mk.injEq] at h
        rw [← h.1] at hp
        exact Or.inl hp
      · rw [if_neg hc2] at h
        by_cases hc3 : (pyMiddle (pySplit k)).isEmpty = true
        · rw [if_pos hc3] at h
          by_cases hc6 : name = k
          · rw [if_pos hc6] at h
            exact Except.noConfusion h
          · rw [if_neg hc6] at h
            simp only [Except.ok.injEq, Prod.mk.injEq] at h
            exact hmig reg' h.1.symm hp
        · rw [if_neg hc3] at h
          by_cases hc4 : ((mn.map fun n => has_correspondence n (pyMiddle (pySplit k))).all id
              || ((pyMiddle (pySplit k)).map fun n => has_correspondence n mn).all id) = true
          · rw [if_pos hc4] at h
            by_cases hc5 : (pyMiddle (pySplit k)).length < mn.length
            · rw [if_pos hc5] at h
              by_cases hc6 : name = k
              · rw [if_pos hc6] at h
                exact Except.noConfusion h
              · rw [if_neg hc6] at h
                simp only [Except.ok.injEq, Prod.mk.injEq] at h
                exact hmig reg' h.1.symm hp
            · rw [if_neg hc5] at h
              simp only [Except.ok.injEq, Prod.mk.injEq] at h
              rw [← h.1] at hp
              exact Or.inl hp
          · rw [if_neg hc4] at h
            exact lift (ih reg' key h p hp)

/-- A found full-name key has more than one token (the search predicate
requires it). -/
theorem findFullKey_multitoken (register : Register) (n k : String)
    (h : findFullKey register n = some k) : 1 < (pySplit k).length := by
  unfold findFullKey at h
  rcases hf : register.find? (fun p =>
      decide (1 < (pySplit p.1).length) && ((pySplit p.1).getLastD "" == n)) with _ | q
  · rw [hf] at h
    exact Option.noConfusion h
  · rw [hf] at h
    have hq := List.find?_some hf
    rw [Bool.and_eq_true] at hq
    simp only [Option.map_some', Option.some.injEq] at h
    rw [← h]
    simpa using hq.1

/-- Exception-threading fold preserves any invariant its step preserves. -/
theorem foldlM_except_inv {σ τ : Type} (P : σ → Prop) (step : σ → τ → Except Unit σ)
    (hstep : ∀ s t s', P s → step s t = .ok s' → P s') :
    ∀ (l : List τ) (s s' : σ), P s → l.foldlM step s = .ok s' → P s'
  | [], s, s', hP, h => by
      simp only [List.foldlM_nil] at h
      cases h
      exact hP
  | t :: l, s, s', hP, h => by
      rw [List.foldlM_cons] at h
      rcases hst : step s t with e | s''
      · rw [hst] at h
        exact Except.noConfusion h
      · rw [hst] at h
        exact foldlM_except_inv P step hstep l s'' s' (hstep s t s'' hP hst) h

/-- `add_name_to_register` preserves the multi-token-fullname property of
ref entries: it only moves existing values and writes `name` entries. -/
theorem add_name_refok (titleOf : String → String) (name : String)
    (register : Register) (all_names : Bool) (register' : Register)
    (hP : ∀ p ∈ register, ∀ f, p.2 = .ref f → 1 < (pySplit f).length)
    (h : add_name_to_register titleOf name register all_names = .ok register') :
    ∀ p ∈ register', ∀ f, p.2 = .ref f → 1 < (pySplit f).length := by
  unfold add_name_to_register at h
  by_cases hk : isKey register name = true
  · rw [if_pos hk] at h
    simp only [Except.ok.injEq] at h
    rw [← h]
    exact hP
  · rw [if_neg hk] at h
    rcases hn : name_key_to_update register name with e | rk
    · rw [hn] at h
      exact Except.noConfusion h
    · obtain ⟨r'', key⟩ := rk
      simp only [hn] at h
      have hent : ∀ p ∈ r'', ∀ f, p.2 = .ref f → 1 < (pySplit f).length := by
        intro p hp f hf
        unfold name_key_to_update at hn
        rw [if_neg hk] at hn
        rcases nktuLoop_entries register name _ _ register r'' key hn p hp with
          hm | ⟨q, hq, hpq⟩
        · exact hP p hm f hf
        · rw [hpq] at hf
          exact hP q hq f hf
      have hins : ∀ e : Entry, (∀ f, e = .ref f → 1 < (pySplit f).length) →
          ∀ p ∈ dinsert r'' key e, ∀ f, p.2 = .ref f → 1 < (pySplit f).length := by
        intro e he p hp f hf
        rcases mem_dinsert r'' key e p hp with hm | rfl
        · exact hent p hm f hf
        · exact he f hf
      by_cases ht : titleOf name ≠ ""
      · rw [if_pos ht] at h
        simp only [Except.ok.injEq] at h
        rw [← h]
        exact hins _ (fun f hf => Entry.noConfusion hf)
      · rw [if_neg ht] at h
        by_cases ha : all_names = true
        · rw [if_pos ha] at h
          simp only [Except.ok.injEq] at h
          rw [← h]
          exact hins _ (fun f hf => Entry.noConfusion hf)
        · rw [if_neg ha] at h
          simp only [Except.ok.injEq] at h
          rw [← h]
          exact hent

/-- `add_entity_to_register` preserves the multi-token-fullname property:
the refs it creates point at keys the search checked to be multi-token. -/
theorem add_entity_refok (defOf : String → String) (name : String)
    (register : Register) (all_names : Bool) (register' : Register)
    (hP : ∀ p ∈ register, ∀ f, p.2 = .ref f → 1 < (pySplit f).length)
    (h : add_entity_to_register defOf name register all_names = .ok register') :
    ∀ p ∈ register', ∀ f, p.2 = .ref f → 1 < (pySplit f).length := by
  have hins : ∀ (e : Entry), (∀ f, e = .ref f → 1 < (pySplit f).length) →
      ∀ p ∈ dinsert register name e, ∀ f, p.2 = .ref f → 1 < (pySplit f).length := by
    intro e he p hp f hf
    rcases mem_dinsert register name e p hp with hm | rfl
    · exact hP p hm f hf
    · exact he f hf
  have hdef : ∀ p ∈ entityDefault defOf name register all_names,
      ∀ f, p.2 = .ref f → 1 < (pySplit f).length := by
    unfold entityDefault
    by_cases hd : defOf name ≠ ""
    · rw [if_pos hd]
      exact hins _ (fun f hf => Entry.noConfusion hf)
    · rw [if_neg hd]
      by_cases ha : all_names = true
      · rw [if_pos ha]
        exact hins _ (fun f hf => Entry.noConfusion hf)
      · rw [if_neg ha]
        exact hP
  unfold add_entity_to_register at h
  by_cases hk : isKey register name = true
  · rw [if_pos hk] at h
    simp only [Except.ok.injEq] at h
    rw [← h]
    exact hP
  · rw [if_neg hk] at h
    by_cases hsp : (!(name.data.contains ' ')) = true
    · rw [if_pos hsp] at h
      rcases hff : findFullKey register name with _ | k
      · simp only [hff] at h
        rcases hlast : name.data.getLast? with _ | c
        · simp only [hlast] at h
          exact Except.noConfusion h
        · simp only [hlast] at h
          by_cases hs : c = 's'
          · rw [if_pos hs] at h
            rcases hff2 : findFullKey register (String.mk name.data.dropLast) with _ | k2
            · simp only [hff2] at h
              simp only [Except.ok.injEq] at h
              rw [← h]
              exact hdef
            · simp only [hff2] at h
              simp only [Except.ok.injEq] at h
              rw [← h]
              exact hins _ (fun f hf => by
                rw [Entry.ref.injEq] at hf
                rw [← hf]
                exact findFullKey_multitoken register _ k2 hff2)
          · rw [if_neg hs] at h
            simp only [Except.ok.injEq] at h
            rw [← h]
            exact hdef
      · simp only [hff] at h
        simp only [Except.ok.injEq] at h
        rw [← h]
        exact hins _ (fun f hf => by
          rw [Entry.ref.injEq] at hf
          rw [← hf]
          exact findFullKey_multitoken register name k hff)
    · rw [if_neg hsp] at h
      simp only [Except.ok.injEq] at h
      rw [← h]
      exact hdef

/-- C7 counterexample: the concrete run over `exToks` succeeds and its
registry violates the claimed invariant: the entry
("Clinton X Clinton", ref "A Clinton") dangles ("A Clinton" is no longer
a key after the last migration), and the entry
("Clinton", ref "Clinton X Clinton") points at a key whose entry is
itself a ref (an alias chain of depth 2). -/
theorem c7_counterexample :
    create_name_register exTitleOf (fun _ => "") false exToks = .ok exRegister
    ∧ ref_invariant exRegister = false :=
  ⟨by decide, by decide⟩

/-- C7 amended: in every registry produced by `create_name_register`, every
entry of kind ref has a fullname of more than one whitespace-separated
token (naming a fuller form); the spec's stronger demand — that the
fullname always remains a live non-ref key — fails after person-name
migrations, which can delete or move a ref's target. -/
theorem c7_refs_have_multitoken_targets (titleOf defOf : String → String)
    (all_names : Bool) (tokens : List Tok) (register : Register)
    (h : create_name_register titleOf defOf all_names tokens = .ok register) :
    ref_fullname_multitoken register = true := by
  have main : ∀ p ∈ register, ∀ f, p.2 = .ref f → 1 < (pySplit f).length := by
    refine foldlM_except_inv
      (fun reg => ∀ p ∈ reg, ∀ f, p.2 = .ref f → 1 < (pySplit f).length)
      _ ?_ tokens [] register (by simp) h
    intro s t s' hP hstep
    match t with
    | .person names =>
        exact foldlM_except_inv _ _
          (fun r pn r' hPr hr => add_name_refok titleOf pn r all_names r' hPr hr)
          names s s' hP hstep
    | .entity txt =>
        exact add_entity_refok defOf txt s all_names s' hP hstep
  rw [ref_fullname_multitoken, List.all_eq_true]
  intro p hp
  match hpe : p.2 with
  | .ref f => simpa using main p hp f hpe
  | .name t => rfl
  | .entity t => rfl

/-- C7 witness: a concrete successful run whose single ref has a
three-token fullname. -/
theorem c7_refs_have_multitoken_targets_witness :
    ref_fullname_multitoken
      [("Hillary Rodham Clinton", Entry.name none),
       ("Clinton", Entry.ref "Hillary Rodham Clinton")] = true :=
  c7_refs_have_multitoken_targets (fun _ => "") (fun _ => "") true
    [.person ["Hillary Rodham Clinton"], .entity "Clinton"] _ (by decide)

/-- C1 counterexample: for the containment pair
("fyrrverandi forseti", "forseti") — the first ranked first, carrying the
exception marker, with mention weights 10 and 5 — the cross-mention pass
does NOT leave the marked side with only the undiluted
`mention_weight(other) * 0.35` bonus: it also receives the regular
`mention_weight(other) * 0.20 / crosses` bonus, because the two
conditionals of the loop body are independent. -/
theorem c1_counterexample :
    innerLoop mwEx "fyrrverandi forseti" ["forseti"] 0 (fun _ => 0)
        "fyrrverandi forseti"
      ≠ (0 : ℝ) + mwEx "forseti" * EX_MENTION_FACTOR := by
  have hg : (contained "forseti" "fyrrverandi forseti"
      || contained "fyrrverandi forseti" "forseti") = true := by decide
  have h1 : (is_ex "fyrrverandi forseti" && !is_ex "forseti") = true := by decide
  have h2 : (is_ex "forseti" && !is_ex "fyrrverandi forseti") = false := by decide
  have hv : innerLoop mwEx "fyrrverandi forseti" ["forseti"] 0 (fun _ => 0)
      = applyPair mwEx "fyrrverandi forseti" "forseti" 1 (fun _ => 0) := by
    unfold innerLoop
    rw [hg]
    simp only [innerLoop]
    rfl
  rw [hv]
  unfold applyPair
  rw [h1, h2]
  simp only [if_true, if_false, Bool.false_eq_true, Function.update_same]
  have hm5 : mwEx "forseti" = 5 := by
    unfold mwEx
    rw [if_neg (by decide)]
  rw [hm5]
  unfold EX_MENTION_FACTOR CROSS_MENTION_FACTOR
  norm_num

/-- C1 amended: for a containment pair where exactly one side carries an
exception-marker word, all bonus goes to the marked side and none to the
unmarked side, but the marked side receives the undiluted
`mention_weight(other) * 0.35` PLUS the regular
`mention_weight(other) * 0.20 / cross_count` (the two conditionals of the
loop body fire independently); as a single-point function update, the
equality also shows the other side's score is untouched by the pair. -/
theorem c1_ex_pair_bonus (mw : String → ℝ) (ri rj : String) (crosses : ℕ)
    (scores : String → ℝ) :
    (is_ex ri = true → is_ex rj = false →
      applyPair mw ri rj crosses scores =
        Function.update scores ri
          (scores ri + mw rj * EX_MENTION_FACTOR
            + mw rj * CROSS_MENTION_FACTOR / (crosses : ℝ)))
    ∧ (is_ex ri = false → is_ex rj = true →
      applyPair mw ri rj crosses scores =
        Function.update scores rj
          (scores rj + mw ri * CROSS_MENTION_FACTOR / (crosses : ℝ)
            + mw ri * EX_MENTION_FACTOR)) := by
  constructor
  · intro h1 h2
    unfold applyPair
    rw [h1, h2]
    simp only [Bool.not_false, Bool.and_self, if_true, Bool.false_and,
      Bool.false_eq_true, if_false, Function.update_same, Function.update_idem]
  · intro h1 h2
    unfold applyPair
    rw [h1, h2]
    simp only [Bool.not_false, Bool.not_true, Bool.and_false, Bool.and_self,
      Bool.false_eq_true, if_false, if_true, Function.update_same,
      Function.update_idem]

/-- C1 witness: the amended pair bonus at the concrete marked/unmarked
pair with mention weights `mwEx` and cross count 1. -/
theorem c1_ex_pair_bonus_witness :
    applyPair mwEx "fyrrverandi forseti" "forseti" 1 (fun _ => 0) =
      Function.update (fun _ => (0 : ℝ)) "fyrrverandi forseti"
        ((0 : ℝ) + mwEx "forseti" * EX_MENTION_FACTOR
          + mwEx "forseti" * CROSS_MENTION_FACTOR / ((1 : ℕ) : ℝ)) :=
  (c1_ex_pair_bonus mwEx "fyrrverandi forseti" "forseti" 1 (fun _ => 0)).1
    (by decide) (by decide)

/-- Evaluation of the ranker on `rdA`: the two buckets tie in mention
weight and score (same timestamps, same text length), there is no
containment, and the stable sorts preserve the insertion order. -/
theorem make_rdA_eval : make_response_list 0 rdA = [("ab", [m1]), ("cd", [m2])] := by
  have hs : scores_of 0 rdA = scores0_of 0 rdA := by
    unfold scores_of
    have h1 : sortByDesc (fun s => mention_weights_of 0 rdA s) (rdA.map Prod.fst)
        = ["ab", "cd"] := by
      show sortByDesc (fun s => mention_weights_of 0 rdA s) ["ab", "cd"] = _
      rw [sortByDesc_pair, if_pos (le_of_eq (show mention_weights_of 0 rdA "cd"
        = mention_weights_of 0 rdA "ab" from rfl))]
    rw [h1]
    rfl
  unfold make_response_list
  rw [hs]
  have h2 : sortByDesc (fun p => scores0_of 0 rdA p.1)
      (rdA.map (fun p => (p.1, sort_articles p.2)))
      = [("ab", [m1]), ("cd", [m2])] := by
    show sortByDesc (fun p => scores0_of 0 rdA p.1)
      [("ab", [m1]), ("cd", [m2])] = _
    rw [sortByDesc_pair, if_pos (le_of_eq (show scores0_of 0 rdA ("cd", [m2]).1
      = scores0_of 0 rdA ("ab", [m1]).1 from rfl))]
  rw [h2]
  rfl

/-- Evaluation of the ranker on `rdB` (same buckets, opposite insertion
order): the tied buckets come out in the opposite order. -/
theorem make_rdB_eval : make_response_list 0 rdB = [("cd", [m2]), ("ab", [m1])] := by
  have hs : scores_of 0 rdB = scores0_of 0 rdB := by
    unfold scores_of
    have h1 : sortByDesc (fun s => mention_weights_of 0 rdB s) (rdB.map Prod.fst)
        = ["cd", "ab"] := by
      show sortByDesc (fun s => mention_weights_of 0 rdB s) ["cd", "ab"] = _
      rw [sortByDesc_pair, if_pos (le_of_eq (show mention_weights_of 0 rdB "ab"
        = mention_weights_of 0 rdB "cd" from rfl))]
    rw [h1]
    rfl
  unfold make_response_list
  rw [hs]
  have h2 : sortByDesc (fun p => scores0_of 0 rdB p.1)
      (rdB.map (fun p => (p.1, sort_articles p.2)))
      = [("cd", [m2]), ("ab", [m1])] := by
    show sortByDesc (fun p => scores0_of 0 rdB p.1)
      [("cd", [m2]), ("ab", [m1])] = _
    rw [sortByDesc_pair, if_pos (le_of_eq (show scores0_of 0 rdB ("ab", [m1]).1
      = scores0_of 0 rdB ("cd", [m2]).1 from rfl))]
  rw [h2]
  rfl

/-- C8 counterexample: `rdA` and `rdB` are equal bucket tables in the
claim's sense — same keys (a permutation) with the same mention maps
(equal lookups) — yet for the same fixed now the outputs differ: the
score-tied answers come out in insertion order, which the two tables
disagree on. -/
theorem c8_counterexample :
    List.lookup "ab" rdA = List.lookup "ab" rdB
    ∧ List.lookup "cd" rdA = List.lookup "cd" rdB
    ∧ (rdA.map Prod.fst).Perm (rdB.map Prod.fst)
    ∧ make_response_list 0 rdA ≠ make_response_list 0 rdB := by
  refine ⟨by decide, by decide, by decide, ?_⟩
  intro hcontra
  rw [make_rdA_eval, make_rdB_eval] at hcontra
  exact absurd hcontra (by decide)

/-- C8 amended: for a fixed now, `make_response_list` is a pure function
of the insertion-ordered bucket table: two invocations on identical
ordered tables return identical output lists (extensional equality of the
tables — same keys with the same mention maps — is not enough when scores
tie, as the counterexample shows). -/
theorem c8_deterministic (now : ℤ) (rd1 rd2 : RD) (h : rd1 = rd2) :
    make_response_list now rd1 = make_response_list now rd2 := by rw [h]

/-- C8 witness: repeated invocation on the same table. -/
theorem c8_deterministic_witness :
    make_response_list 0 rdA = make_response_list 0 rdA :=
  c8_deterministic 0 rdA rdA rfl

/-- C2: Cutoff law of `make_response_list`: the cutoff stage never filters
when fewer than five answers exist; when a 5th-ranked answer (index 4)
exists, nothing is removed if it has exactly one source, and every
single-source answer is removed (by one single filter pass, not
iteratively) if it has more than one. -/
theorem c2_cutoff_law (rl : List (String × List Mention)) :
    (rl.length ≤ _CUTOFF_AFTER → cutoff rl = rl) ∧
    (∀ v, rl[_CUTOFF_AFTER]? = some v →
      (v.2.length = 1 → cutoff rl = rl) ∧
      (1 < v.2.length →
        cutoff rl = rl.filter (fun x => decide (1 < x.2.length)))) := by
  constructor
  · intro h
    unfold cutoff
    have hnone : rl[_CUTOFF_AFTER]? = none := by
      rw [List.getElem?_eq_none_iff]
      exact h
    rw [hnone]
  · intro v hv
    constructor
    · intro h1
      unfold cutoff
      rw [hv]
      have hn : ¬ (1 < v.2.length) := by omega
      show (if 1 < v.2.length then List.filter (fun x => decide (1 < x.2.length)) rl
            else rl) = rl
      rw [if_neg hn]
    · intro h2
      unfold cutoff
      rw [hv]
      show (if 1 < v.2.length then List.filter (fun x => decide (1 < x.2.length)) rl
            else rl) = List.filter (fun x => decide (1 < x.2.length)) rl
      rw [if_pos h2]

/-- C2 witness: on a concrete five-answer list whose 5th entry has two
sources, the cutoff drops exactly the single-source answers. -/
theorem c2_cutoff_law_witness :
    cutoff rlC2 = rlC2.filter (fun x => decide (1 < x.2.length)) :=
  ((c2_cutoff_law rlC2).2 ("e", [mkM "6", mkM "7"]) rfl).2 (by decide)

/-- C3 counterexample: inserting the candidate "Dagur Bergþóruson
Eggertsson" into a registry holding the key "Dagur B. Eggertsson" does
NOT migrate the entry to the candidate key (as the claim states it
should): the result is not the migrated registry with the candidate key
returned. -/
theorem c3_counterexample :
    name_key_to_update [("Dagur B. Eggertsson", (0 : ℕ))]
        "Dagur Bergþóruson Eggertsson"
      ≠ .ok ([("Dagur Bergþóruson Eggertsson", 0)],
             "Dagur Bergþóruson Eggertsson") := by decide

/-- C3 amended: both names have one middle token ("Bergþóruson" vs "B.",
which correspond by prefix), so the middle-name lists tie in length and
the existing key wins: the registry is unchanged and the existing key
"Dagur B. Eggertsson" is returned; no migration happens. -/
theorem c3_tie_keeps_existing_key :
    name_key_to_update [("Dagur B. Eggertsson", (0 : ℕ))]
        "Dagur Bergþóruson Eggertsson"
      = .ok ([("Dagur B. Eggertsson", 0)], "Dagur B. Eggertsson") := by decide

/-- C6: For every processed query, the dispatcher `sentence` invokes
exactly one of `set_answer` / `set_error` — never both and never neither:
`set_error("E_QUERY_NOT_UNDERSTOOD")` without a qtype, `set_answer` on
handler success or on a missing handler (with the fallback string
"qtype: qkey"), `set_error` with "E_EXCEPTION: " and the exception text
when the handler raises — except that an `AssertionError` propagates
unconditionally (and then neither is invoked). -/
theorem c6_dispatcher_terminal (α : Type) (result : Option (String × String))
    (qfuncs : String → Option (String → HandlerOutcome α)) :
    ((sentence α result qfuncs).2 = false →
      answerCount (sentence α result qfuncs).1
        + errorCount (sentence α result qfuncs).1 = 1)
    ∧ ((sentence α result qfuncs).2 = true →
      answerCount (sentence α result qfuncs).1 = 0
        ∧ errorCount (sentence α result qfuncs).1 = 0)
    ∧ (result = none →
      sentence α result qfuncs = ([.set_error "E_QUERY_NOT_UNDERSTOOD"], false))
    ∧ (∀ qtype qkey, result = some (qtype, qkey) → qfuncs qtype = none →
      sentence α result qfuncs
        = ([.set_qtype qtype, .set_key qkey,
            .set_answer (.str (qtype ++ ": " ++ qkey)) none], false))
    ∧ (∀ qtype qkey f a voice, result = some (qtype, qkey) →
      qfuncs qtype = some f → f qkey = .ok a voice →
      sentence α result qfuncs
        = ([.set_qtype qtype, .set_key qkey, .set_answer a voice], false))
    ∧ (∀ qtype qkey f msg, result = some (qtype, qkey) →
      qfuncs qtype = some f → f qkey = .exception msg →
      sentence α result qfuncs
        = ([.set_qtype qtype, .set_key qkey,
            .set_error ("E_EXCEPTION: " ++ msg)], false))
    ∧ (∀ qtype qkey f, result = some (qtype, qkey) →
      qfuncs qtype = some f → f qkey = .assertionError →
      sentence α result qfuncs = ([.set_qtype qtype, .set_key qkey], true)) := by
  rcases result with _ | ⟨qtype, qkey⟩
  · refine ⟨?_, ?_, ?_, ?_, ?_, ?_, ?_⟩ <;>
      simp [sentence, answerCount, errorCount, isSetAnswer, isSetError]
  · rcases hq : qfuncs qtype with _ | f
    · refine ⟨?_, ?_, ?_, ?_, ?_, ?_, ?_⟩ <;>
        simp_all [sentence, answerCount, errorCount, isSetAnswer, isSetError]
    · rcases ho : f qkey with ⟨a, voice⟩ | _ | msg <;>
        refine ⟨?_, ?_, ?_, ?_, ?_, ?_, ?_⟩ <;>
        simp_all [sentence, answerCount, errorCount, isSetAnswer, isSetError]

/-- C6 witness: a concrete handler raising a non-assertion exception leads
to a single `set_error` embedding the message after the prefix. -/
theorem c6_dispatcher_terminal_witness :
    sentence ℕ (some ("Person", "Jón"))
        (fun _ => some (fun _ => .exception "boom"))
      = ([.set_qtype "Person", .set_key "Jón",
          .set_error ("E_EXCEPTION: " ++ "boom")], false) :=
  (c6_dispatcher_terminal ℕ (some ("Person", "Jón"))
      (fun _ => some (fun _ => .exception "boom"))).2.2.2.2.2.1
    "Person" "Jón" (fun _ => .exception "boom") "boom" rfl rfl rfl

/-- C9: For every stem whose article count is zero, `query_word` returns
count 0 with an empty answers list and never invokes the relatedness
lookup. -/
theorem c9_zero_count_short_circuit (countQ : String → ℕ)
    (relQ : String → List (String × String × ℕ)) (stem : String)
    (h : countQ stem = 0) :
    query_word countQ relQ stem = (⟨0, []⟩, ["ArticleCountQuery.count"]) := by
  simp [query_word, h]

/-- C9 witness: concrete zero-count oracle. -/
theorem c9_zero_count_short_circuit_witness :
    query_word (fun _ => 0) (fun _ => [("x", "n", 3)]) "orð"
      = (⟨0, []⟩, ["ArticleCountQuery.count"]) :=
  c9_zero_count_short_circuit (fun _ => 0) (fun _ => [("x", "n", 3)]) "orð" rfl

end Greynir
